import Mathlib

/-!
Verification of the tcl formatter core (src/formatter.rs).

The formatter walks an owned syntax tree (`Ast`) and appends rendered text to
a byte buffer, tracking the current indentation depth and a counter of
consecutive blank-line markers.  Rust panics (the value-less `Return`
statement hits an unimplemented arm) are modelled by returning `none`.
Bytes are modelled as natural numbers.
-/

/-- Byte sequences: operand payloads and the output buffer. -/
abbrev Bytes := List Nat

/-- Converts an ASCII string literal to its byte sequence. -/
def bs (s : String) : Bytes := s.data.map Char.toNat

/-- Modelled from the spec: the `Statement` enum of src/ast.rs (the file is not
among the given sources; variant and field names follow the spec's data model
and the pattern matches in src/formatter.rs).  All operand fields are opaque
byte strings; `Return` carries an optional value. -/
inductive Statement where
  | Set (identifier value : Bytes)
  | Log (bucket value : Bytes)
  | Snat (ip_address port : Bytes)
  | Node (ip_address port : Bytes)
  | Pool (identifier : Bytes)
  | SnatPool (identifier : Bytes)
  | Return (value : Option Bytes)

/-- Modelled from the spec: the `Ast` enum of src/ast.rs (the file is not among
the given sources; variant and field names follow the spec's data model and the
pattern matches in src/formatter.rs). -/
inductive Ast where
  | Block (trees : List Ast)
  | Comment (data : Bytes)
  | Procedure (name : Bytes) (parameters : List Bytes) (body : Ast)
  | If (condition : Bytes) (body : Ast)
  | IfElse (condition : Bytes) (block_if_true block_if_false : Ast)
  | IfElseIf (condition_block_vec : List (Bytes × Ast)) (block_if_false : Ast)
  | Switch (condition : Bytes)
      (value_block_or_fallthrough_vec : List (Bytes × Option Ast))
  | Statement (s : Statement)
  | Newline

/-- The formatter state of src/formatter.rs: indentation depth, counter of
consecutive newline nodes, and the append-only output buffer. -/
structure Formatter where
  depth : Nat
  consecutive_new_lines : Nat
  buf : Bytes

namespace Formatter

/-- `Formatter::new`: depth 0, newline counter 0, empty buffer. -/
def new : Formatter := ⟨0, 0, []⟩

/-- `Formatter::write`: append a byte slice to the buffer. -/
def write (f : Formatter) (slice : Bytes) : Formatter :=
  ⟨f.depth, f.consecutive_new_lines, f.buf ++ slice⟩

/-- `Formatter::newline`: push a single line-feed byte. -/
def newline (f : Formatter) : Formatter := f.write (bs "\n")

/-- `Formatter::writeline`: write a slice then a line break. -/
def writeline (f : Formatter) (slice : Bytes) : Formatter := (f.write slice).newline

/-- `Formatter::indent`: append `depth` copies of the four-space unit,
recomputed from the current depth counter. -/
def indent (f : Formatter) : Formatter :=
  f.write (List.flatten (List.replicate f.depth (bs "    ")))

/-- `Formatter::close_block`: indentation followed by a closing brace line. -/
def close_block (f : Formatter) : Formatter := f.indent.write (bs "\x7d\n")

/-- `Formatter::write_statement`: keyword plus operands joined by single
spaces, then one line break.  The zero-operand combination (a `Return` with no
value) is `todo!()` in the source and the impossible keyword-with-only-second
operand arm is `unreachable!()`; both panics are modelled as `none`. -/
def write_statement (f : Formatter) (s : Statement) : Option Formatter :=
  let kv : Bytes × Option Bytes × Option Bytes :=
    match s with
    | .Set identifier value => (bs "set", some identifier, some value)
    | .Log bucket value => (bs "log", some bucket, some value)
    | .Snat ip_address port => (bs "snat", some ip_address, some port)
    | .Node ip_address port => (bs "node", some ip_address, some port)
    | .Pool identifier => (bs "pool", some identifier, none)
    | .SnatPool identifier => (bs "snatpool", some identifier, none)
    | .Return value => (bs "return", value, none)
  let f := f.write kv.1
  match kv.2.1, kv.2.2 with
  | some v1, some v2 =>
      some ((((f.write (bs " ")).write v1).write (bs " ")).write v2).newline
  | some v1, none => some ((f.write (bs " ")).write v1).newline
  | none, none => none
  | none, some _ => none

mutual

/-- `Formatter::run`: the recursive traversal.  The consecutive-newline
counter is updated first (incremented on `Newline`, reset to 0 otherwise),
then the node is dispatched. -/
def run (f : Formatter) (ast : Ast) : Option Formatter :=
  let f : Formatter :=
    ⟨f.depth,
      (match ast with
        | .Newline => f.consecutive_new_lines + 1
        | _ => 0),
      f.buf⟩
  match ast with
  | .Block trees => runList f trees
  | .Comment data => some (((f.indent.write (bs "# ")).write data).newline)
  | .Procedure name parameters body =>
      let f := ((f.indent.write (bs "proc ")).write name).write (bs " \x7b")
      let f := parameters.foldl (fun acc p => (acc.write (bs " ")).write p) f
      let f := f.writeline (bs " \x7d \x7b")
      (run_nested f body).map close_block
  | .If condition body =>
      let f := ((f.indent.write (bs "if \x7b ")).write condition).writeline
        (bs " \x7d \x7b")
      (run_nested f body).map close_block
  | .IfElse condition block_if_true block_if_false =>
      let f := ((f.indent.write (bs "if \x7b ")).write condition).writeline
        (bs " \x7d \x7b")
      (run_nested f block_if_true).bind fun g =>
        let g := (g.close_block.indent.write (bs "else \x7b")).newline
        (run_nested g block_if_false).map close_block
  | .IfElseIf condition_block_vec block_if_false =>
      (runIfPairs f 0 condition_block_vec).bind fun g =>
        let g := g.indent.writeline (bs "else \x7b")
        (run_nested g block_if_false).map close_block
  | .Switch condition value_block_or_fallthrough_vec =>
      let f := ((f.indent.write (bs "switch ")).write condition).writeline
        (bs " \x7b")
      let f : Formatter := ⟨f.depth + 1, f.consecutive_new_lines, f.buf⟩
      (runSwitchPairs f value_block_or_fallthrough_vec).map fun g =>
        close_block ⟨g.depth - 1, g.consecutive_new_lines, g.buf⟩
  | .Statement s => f.indent.write_statement s
  | .Newline =>
      if f.consecutive_new_lines ≤ 2 then some f.newline else some f
termination_by (sizeOf ast, 0)

/-- The `for tree in trees` loop of the `Block` arm. -/
def runList (f : Formatter) (trees : List Ast) : Option Formatter :=
  match trees with
  | [] => some f
  | t :: ts => (run f t).bind fun g => runList g ts
termination_by (sizeOf trees, 0)

/-- The `for (idx, (condition, block))` loop of the `IfElseIf` arm: the first
pair (index 0) uses keyword `if`, later pairs use `elseif`. -/
def runIfPairs (f : Formatter) (idx : Nat) (pairs : List (Bytes × Ast)) :
    Option Formatter :=
  match pairs with
  | [] => some f
  | (condition, block) :: rest =>
      let f := f.indent
      let f := if idx == 0 then f.write (bs "if \x7b ")
        else f.write (bs "elseif \x7b ")
      let f := (f.write condition).writeline (bs " \x7d \x7b")
      (run_nested f block).bind fun g => runIfPairs g.close_block (idx + 1) rest
termination_by (sizeOf pairs, 0)

/-- The `for (value, block_or_fallthrough)` loop of the `Switch` arm: a pair
with a body opens a nested block, a pair without one is rendered as a
fallthrough line ending in a dash. -/
def runSwitchPairs (f : Formatter) (pairs : List (Bytes × Option Ast)) :
    Option Formatter :=
  match pairs with
  | [] => some f
  | (value, block_or_fallthrough) :: rest =>
      let f := f.indent.write value
      match block_or_fallthrough with
      | some block =>
          let f := f.writeline (bs " \x7b")
          (run_nested f block).bind fun g => runSwitchPairs g.close_block rest
      | none => runSwitchPairs (f.writeline (bs " -")) rest
termination_by (sizeOf pairs, 0)

/-- `Formatter::run_nested`: increment the depth, run, decrement the depth. -/
def run_nested (f : Formatter) (ast : Ast) : Option Formatter :=
  (run ⟨f.depth + 1, f.consecutive_new_lines, f.buf⟩ ast).map fun g =>
    ⟨g.depth - 1, g.consecutive_new_lines, g.buf⟩
termination_by (sizeOf ast, 1)

end

/-- `Formatter::format`: run the traversal and return the output buffer. -/
def format (f : Formatter) (ast : Ast) : Option Bytes := (f.run ast).map buf

end Formatter

/-- The indentation prefix emitted at depth `d`: `d` four-space units. -/
def indentBytes (d : Nat) : Bytes := List.flatten (List.replicate d (bs "    "))

/-- The bytes contributed by the parameter loop of the `Procedure` arm. -/
def paramBytes (ps : List Bytes) : Bytes :=
  (ps.map fun p => bs " " ++ p).flatten

/-- `true` when a statement is not a value-less `Return` (the only operand
combination whose rendering arm is unimplemented in the source). -/
def Statement.hasOperands : Statement → Bool
  | .Return none => false
  | _ => true

mutual

/-- `true` when no statement anywhere in the tree is a value-less `Return`. -/
def noBareReturn (ast : Ast) : Bool :=
  match ast with
  | .Block trees => noBareReturnList trees
  | .Comment _ => true
  | .Procedure _ _ body => noBareReturn body
  | .If _ body => noBareReturn body
  | .IfElse _ bt bf => noBareReturn bt && noBareReturn bf
  | .IfElseIf pairs bf => noBareReturnPairs pairs && noBareReturn bf
  | .Switch _ pairs => noBareReturnSwitch pairs
  | .Statement s => s.hasOperands
  | .Newline => true
termination_by sizeOf ast

/-- Conjunction of `noBareReturn` over a list of trees. -/
def noBareReturnList (l : List Ast) : Bool :=
  match l with
  | [] => true
  | t :: ts => noBareReturn t && noBareReturnList ts
termination_by sizeOf l

/-- Conjunction of `noBareReturn` over the bodies of condition/body pairs. -/
def noBareReturnPairs (l : List (Bytes × Ast)) : Bool :=
  match l with
  | [] => true
  | (_, t) :: ts => noBareReturn t && noBareReturnPairs ts
termination_by sizeOf l

/-- Conjunction of `noBareReturn` over the present bodies of switch pairs. -/
def noBareReturnSwitch (l : List (Bytes × Option Ast)) : Bool :=
  match l with
  | [] => true
  | (_, some t) :: ts => noBareReturn t && noBareReturnSwitch ts
  | (_, none) :: ts => noBareReturnSwitch ts
termination_by sizeOf l

end

/-- The output and final newline counter of a traversal started on an empty
buffer at depth `d` with newline counter `c`. -/
def runOut (d c : Nat) (ast : Ast) : Option (Bytes × Nat) :=
  (Formatter.run ⟨d, c, []⟩ ast).map fun g => (g.buf, g.consecutive_new_lines)

/-- Output form of the `Block` child loop. -/
def runListOut (d c : Nat) (l : List Ast) : Option (Bytes × Nat) :=
  (Formatter.runList ⟨d, c, []⟩ l).map fun g => (g.buf, g.consecutive_new_lines)

/-- Output form of the `IfElseIf` pair loop. -/
def runIfPairsOut (d c idx : Nat) (l : List (Bytes × Ast)) :
    Option (Bytes × Nat) :=
  (Formatter.runIfPairs ⟨d, c, []⟩ idx l).map fun g =>
    (g.buf, g.consecutive_new_lines)

/-- Output form of the `Switch` pair loop. -/
def runSwitchPairsOut (d c : Nat) (l : List (Bytes × Option Ast)) :
    Option (Bytes × Nat) :=
  (Formatter.runSwitchPairs ⟨d, c, []⟩ l).map fun g =>
    (g.buf, g.consecutive_new_lines)

/-- Frame property of the traversal at one tree: the result of `run` does not
depend on the starting buffer (which is only ever extended by the produced
output) and the depth field comes back unchanged. -/
def RunFrame (ast : Ast) : Prop :=
  ∀ (d c : Nat) (b : Bytes),
    Formatter.run ⟨d, c, b⟩ ast =
      (runOut d c ast).map fun p => ⟨d, p.2, b ++ p.1⟩

/-- The header keyword chosen by the `IfElseIf` pair loop: `if` for the first
pair, `elseif` for every later one. -/
def ifKeyword (idx : Nat) : Bytes :=
  if idx == 0 then bs "if \x7b " else bs "elseif \x7b "

/-- Totality of the traversal at one tree: `run` succeeds from every state. -/
def TotalRun (ast : Ast) : Prop :=
  ∀ f : Formatter, (Formatter.run f ast).isSome = true

namespace Formatter

@[simp] theorem write_mk (d c : Nat) (b s : Bytes) :
    write ⟨d, c, b⟩ s = ⟨d, c, b ++ s⟩ := rfl

@[simp] theorem newline_mk (d c : Nat) (b : Bytes) :
    newline ⟨d, c, b⟩ = ⟨d, c, b ++ bs "\n"⟩ := rfl

@[simp] theorem writeline_mk (d c : Nat) (b s : Bytes) :
    writeline ⟨d, c, b⟩ s = ⟨d, c, b ++ s ++ bs "\n"⟩ := rfl

@[simp] theorem indent_mk (d c : Nat) (b : Bytes) :
    indent ⟨d, c, b⟩ = ⟨d, c, b ++ indentBytes d⟩ := rfl

@[simp] theorem close_block_mk (d c : Nat) (b : Bytes) :
    close_block ⟨d, c, b⟩ = ⟨d, c, b ++ indentBytes d ++ bs "\x7d\n"⟩ := rfl

@[simp] theorem paramFold_mk (d c : Nat) (b : Bytes) (ps : List Bytes) :
    ps.foldl (fun acc p => (acc.write (bs " ")).write p) (⟨d, c, b⟩ : Formatter)
      = ⟨d, c, b ++ paramBytes ps⟩ := by
  induction ps generalizing b with
  | nil => simp [paramBytes]
  | cons p ps ih => simp [paramBytes, ih, List.append_assoc]

@[simp] theorem write_statement_set (d c : Nat) (b i v : Bytes) :
    write_statement ⟨d, c, b⟩ (.Set i v)
      = some ⟨d, c, b ++ bs "set" ++ bs " " ++ i ++ bs " " ++ v ++ bs "\n"⟩ := rfl

@[simp] theorem write_statement_log (d c : Nat) (b i v : Bytes) :
    write_statement ⟨d, c, b⟩ (.Log i v)
      = some ⟨d, c, b ++ bs "log" ++ bs " " ++ i ++ bs " " ++ v ++ bs "\n"⟩ := rfl

@[simp] theorem write_statement_snat (d c : Nat) (b i v : Bytes) :
    write_statement ⟨d, c, b⟩ (.Snat i v)
      = some ⟨d, c, b ++ bs "snat" ++ bs " " ++ i ++ bs " " ++ v ++ bs "\n"⟩ := rfl

@[simp] theorem write_statement_node (d c : Nat) (b i v : Bytes) :
    write_statement ⟨d, c, b⟩ (.Node i v)
      = some ⟨d, c, b ++ bs "node" ++ bs " " ++ i ++ bs " " ++ v ++ bs "\n"⟩ := rfl

@[simp] theorem write_statement_pool (d c : Nat) (b i : Bytes) :
    write_statement ⟨d, c, b⟩ (.Pool i)
      = some ⟨d, c, b ++ bs "pool" ++ bs " " ++ i ++ bs "\n"⟩ := rfl

@[simp] theorem write_statement_snatpool (d c : Nat) (b i : Bytes) :
    write_statement ⟨d, c, b⟩ (.SnatPool i)
      = some ⟨d, c, b ++ bs "snatpool" ++ bs " " ++ i ++ bs "\n"⟩ := rfl

@[simp] theorem write_statement_return_some (d c : Nat) (b v : Bytes) :
    write_statement ⟨d, c, b⟩ (.Return (some v))
      = some ⟨d, c, b ++ bs "return" ++ bs " " ++ v ++ bs "\n"⟩ := rfl

@[simp] theorem write_statement_return_none (d c : Nat) (b : Bytes) :
    write_statement ⟨d, c, b⟩ (.Return none) = none := rfl

end Formatter

/-- Writing one of two slices, chosen by a condition, is writing the chosen
slice. -/
theorem Formatter.write_ite (f : Formatter) (cond : Prop) [Decidable cond]
    (a b : Bytes) :
    (if cond then f.write a else f.write b) = f.write (if cond then a else b) := by
  split <;> rfl

theorem run_nested_frame (ast : Ast) (h : RunFrame ast) (d c : Nat)
    (b : Bytes) :
    Formatter.run_nested ⟨d, c, b⟩ ast =
      (runOut (d + 1) c ast).map fun p => ⟨d, p.2, b ++ p.1⟩ := by
  simp only [Formatter.run_nested]
  rw [h (d + 1) c b]
  cases hp : runOut (d + 1) c ast <;> simp [hp]

theorem runList_frame (l : List Ast) (h : ∀ t ∈ l, RunFrame t) :
    ∀ (d c : Nat) (b : Bytes),
      Formatter.runList ⟨d, c, b⟩ l =
        (runListOut d c l).map fun p => ⟨d, p.2, b ++ p.1⟩ := by
  induction l with
  | nil => intro d c b; simp [Formatter.runList, runListOut]
  | cons t ts ih =>
    intro d c b
    have ht : RunFrame t := h t (by simp)
    have hts : ∀ u ∈ ts, RunFrame u := fun u hu =>
      h u (List.mem_cons_of_mem _ hu)
    simp only [Formatter.runList, runListOut]
    rw [ht d c b]
    conv_rhs => rw [ht d c []]
    cases hp : runOut d c t with
    | none => simp
    | some p =>
      simp only [hp, Option.map_some', Option.some_bind, List.nil_append]
      rw [ih hts d p.2 (b ++ p.1), ih hts d p.2 p.1]
      cases hq : runListOut d p.2 ts <;> simp [List.append_assoc]

/-- One step of the `IfElseIf` pair loop, with the keyword choice folded into
`ifKeyword`. -/
theorem runIfPairs_cons (f : Formatter) (idx : Nat) (condition : Bytes)
    (block : Ast) (rest : List (Bytes × Ast)) :
    Formatter.runIfPairs f idx ((condition, block) :: rest) =
      (Formatter.run_nested
          (((f.indent.write (ifKeyword idx)).write condition).writeline
            (bs " \x7d \x7b")) block).bind
        fun g => Formatter.runIfPairs g.close_block (idx + 1) rest := by
  simp only [Formatter.runIfPairs, Formatter.write_ite, ifKeyword]

theorem runIfPairs_frame (l : List (Bytes × Ast))
    (h : ∀ q ∈ l, RunFrame q.2) :
    ∀ (d c idx : Nat) (b : Bytes),
      Formatter.runIfPairs ⟨d, c, b⟩ idx l =
        (runIfPairsOut d c idx l).map fun p => ⟨d, p.2, b ++ p.1⟩ := by
  induction l with
  | nil => intro d c idx b; simp [Formatter.runIfPairs, runIfPairsOut]
  | cons q rest ih =>
    obtain ⟨condition, block⟩ := q
    intro d c idx b
    have hbl : RunFrame block := h (condition, block) (by simp)
    have hrest : ∀ u ∈ rest, RunFrame u.2 := fun u hu =>
      h u (List.mem_cons_of_mem _ hu)
    simp only [runIfPairs_cons, runIfPairsOut, Formatter.indent_mk,
      Formatter.write_mk, Formatter.writeline_mk]
    rw [run_nested_frame block hbl, run_nested_frame block hbl]
    cases hp : runOut (d + 1) c block with
    | none => simp
    | some p =>
      simp only [hp, Option.map_some', Option.some_bind, List.nil_append,
        Formatter.close_block_mk]
      rw [ih hrest d p.2 (idx + 1), ih hrest d p.2 (idx + 1)]
      cases hq : runIfPairsOut d p.2 (idx + 1) rest <;>
        simp [List.append_assoc]

theorem runSwitchPairs_frame (l : List (Bytes × Option Ast))
    (h : ∀ q ∈ l, ∀ t ∈ q.2, RunFrame t) :
    ∀ (d c : Nat) (b : Bytes),
      Formatter.runSwitchPairs ⟨d, c, b⟩ l =
        (runSwitchPairsOut d c l).map fun p => ⟨d, p.2, b ++ p.1⟩ := by
  induction l with
  | nil => intro d c b; simp [Formatter.runSwitchPairs, runSwitchPairsOut]
  | cons q rest ih =>
    obtain ⟨value, blockOrFall⟩ := q
    intro d c b
    have hrest : ∀ u ∈ rest, ∀ t ∈ u.2, RunFrame t := fun u hu =>
      h u (List.mem_cons_of_mem _ hu)
    cases blockOrFall with
    | none =>
      simp only [Formatter.runSwitchPairs, runSwitchPairsOut,
        Formatter.indent_mk, Formatter.write_mk, Formatter.writeline_mk]
      rw [ih hrest d c (b ++ indentBytes d ++ value ++ bs " -" ++ bs "\n"),
        ih hrest d c ([] ++ indentBytes d ++ value ++ bs " -" ++ bs "\n")]
      cases hq : runSwitchPairsOut d c rest <;> simp [List.append_assoc]
    | some block =>
      have hbl : RunFrame block := h (value, some block) (by simp) block (by simp)
      simp only [Formatter.runSwitchPairs, runSwitchPairsOut,
        Formatter.indent_mk, Formatter.write_mk, Formatter.writeline_mk]
      rw [run_nested_frame block hbl, run_nested_frame block hbl]
      cases hp : runOut (d + 1) c block with
      | none => simp
      | some p =>
        simp only [hp, Option.map_some', Option.some_bind, List.nil_append,
          Formatter.close_block_mk]
        rw [ih hrest d p.2, ih hrest d p.2]
        cases hq : runSwitchPairsOut d p.2 rest <;> simp [List.append_assoc]

theorem runFrame_sized : ∀ (n : Nat) (ast : Ast), sizeOf ast ≤ n → RunFrame ast := by
  intro n
  induction n with
  | zero =>
    intro ast h
    exfalso
    cases ast <;> simp at h
  | succ n ih =>
    intro ast hsize
    cases ast with
    | Block trees =>
      have htrees : ∀ t ∈ trees, RunFrame t := by
        intro t ht
        refine ih t ?_
        have h1 := List.sizeOf_lt_of_mem ht
        simp at hsize
        omega
      intro d c b
      simp only [runOut, Formatter.run]
      rw [runList_frame trees htrees d 0 b, runList_frame trees htrees d 0 []]
      cases hq : runListOut d 0 trees <;> simp
    | Comment data =>
      intro d c b
      simp [runOut, Formatter.run, List.append_assoc]
    | Procedure name parameters body =>
      have hb : RunFrame body := by
        refine ih body ?_
        simp at hsize
        omega
      intro d c b
      simp only [runOut, Formatter.run, Formatter.indent_mk, Formatter.write_mk,
        Formatter.paramFold_mk, Formatter.writeline_mk]
      rw [run_nested_frame body hb, run_nested_frame body hb]
      cases hp : runOut (d + 1) 0 body <;> simp [List.append_assoc]
    | If condition body =>
      have hb : RunFrame body := by
        refine ih body ?_
        simp at hsize
        omega
      intro d c b
      simp only [runOut, Formatter.run, Formatter.indent_mk, Formatter.write_mk,
        Formatter.writeline_mk]
      rw [run_nested_frame body hb, run_nested_frame body hb]
      cases hp : runOut (d + 1) 0 body <;> simp [List.append_assoc]
    | IfElse condition block_if_true block_if_false =>
      have hbt : RunFrame block_if_true := by
        refine ih block_if_true ?_
        simp at hsize
        omega
      have hbf : RunFrame block_if_false := by
        refine ih block_if_false ?_
        simp at hsize
        omega
      intro d c b
      simp only [runOut, Formatter.run, Formatter.indent_mk, Formatter.write_mk,
        Formatter.writeline_mk]
      rw [run_nested_frame block_if_true hbt, run_nested_frame block_if_true hbt]
      cases hp : runOut (d + 1) 0 block_if_true with
      | none => simp
      | some p =>
        simp only [Option.map_some', Option.some_bind, List.nil_append,
          Formatter.close_block_mk, Formatter.indent_mk, Formatter.write_mk,
          Formatter.newline_mk]
        rw [run_nested_frame block_if_false hbf,
          run_nested_frame block_if_false hbf]
        cases hq : runOut (d + 1) p.2 block_if_false <;>
          simp [List.append_assoc]
    | IfElseIf condition_block_vec block_if_false =>
      have hpairs : ∀ q ∈ condition_block_vec, RunFrame q.2 := by
        intro q hq
        have h1 := List.sizeOf_lt_of_mem hq
        obtain ⟨qa, qb⟩ := q
        refine ih qb ?_
        simp at hsize h1
        omega
      have hbf : RunFrame block_if_false := by
        refine ih block_if_false ?_
        simp at hsize
        omega
      intro d c b
      simp only [runOut, Formatter.run]
      rw [runIfPairs_frame condition_block_vec hpairs d 0 0 b,
        runIfPairs_frame condition_block_vec hpairs d 0 0 []]
      cases hp : runIfPairsOut d 0 0 condition_block_vec with
      | none => simp
      | some p =>
        simp only [Option.map_some', Option.some_bind, List.nil_append,
          Formatter.indent_mk, Formatter.writeline_mk]
        rw [run_nested_frame block_if_false hbf,
          run_nested_frame block_if_false hbf]
        cases hq : runOut (d + 1) p.2 block_if_false <;>
          simp [List.append_assoc]
    | Switch condition value_block_or_fallthrough_vec =>
      have hsw : ∀ q ∈ value_block_or_fallthrough_vec, ∀ t ∈ q.2, RunFrame t := by
        intro q hq t ht
        have h1 := List.sizeOf_lt_of_mem hq
        obtain ⟨qa, qb⟩ := q
        rw [Option.mem_def] at ht
        subst ht
        refine ih t ?_
        simp at hsize h1
        omega
      intro d c b
      simp only [runOut, Formatter.run, Formatter.indent_mk, Formatter.write_mk,
        Formatter.writeline_mk]
      rw [runSwitchPairs_frame value_block_or_fallthrough_vec hsw (d + 1) 0,
        runSwitchPairs_frame value_block_or_fallthrough_vec hsw (d + 1) 0]
      cases hp : runSwitchPairsOut (d + 1) 0 value_block_or_fallthrough_vec <;>
        simp [List.append_assoc]
    | Statement s =>
      intro d c b
      cases s with
      | Set i v => simp [runOut, Formatter.run, List.append_assoc]
      | Log i v => simp [runOut, Formatter.run, List.append_assoc]
      | Snat i v => simp [runOut, Formatter.run, List.append_assoc]
      | Node i v => simp [runOut, Formatter.run, List.append_assoc]
      | Pool i => simp [runOut, Formatter.run, List.append_assoc]
      | SnatPool i => simp [runOut, Formatter.run, List.append_assoc]
      | Return v => cases v <;> simp [runOut, Formatter.run, List.append_assoc]
    | Newline =>
      intro d c b
      simp only [runOut, Formatter.run]
      by_cases hc : c + 1 ≤ 2 <;> simp [hc]

/-- Every tree satisfies the frame property. -/
theorem runFrame (ast : Ast) : RunFrame ast :=
  runFrame_sized (sizeOf ast) ast le_rfl

theorem run_frame_eq (d c : Nat) (b : Bytes) (ast : Ast) :
    Formatter.run ⟨d, c, b⟩ ast =
      (runOut d c ast).map fun p => ⟨d, p.2, b ++ p.1⟩ :=
  runFrame ast d c b

theorem runList_frame_eq (d c : Nat) (b : Bytes) (l : List Ast) :
    Formatter.runList ⟨d, c, b⟩ l =
      (runListOut d c l).map fun p => ⟨d, p.2, b ++ p.1⟩ :=
  runList_frame l (fun t _ => runFrame t) d c b

theorem runIfPairs_frame_eq (d c idx : Nat) (b : Bytes)
    (l : List (Bytes × Ast)) :
    Formatter.runIfPairs ⟨d, c, b⟩ idx l =
      (runIfPairsOut d c idx l).map fun p => ⟨d, p.2, b ++ p.1⟩ :=
  runIfPairs_frame l (fun q _ => runFrame q.2) d c idx b

theorem runSwitchPairs_frame_eq (d c : Nat) (b : Bytes)
    (l : List (Bytes × Option Ast)) :
    Formatter.runSwitchPairs ⟨d, c, b⟩ l =
      (runSwitchPairsOut d c l).map fun p => ⟨d, p.2, b ++ p.1⟩ :=
  runSwitchPairs_frame l (fun _ _ t _ => runFrame t) d c b

theorem run_nested_frame_eq (d c : Nat) (b : Bytes) (ast : Ast) :
    Formatter.run_nested ⟨d, c, b⟩ ast =
      (runOut (d + 1) c ast).map fun p => ⟨d, p.2, b ++ p.1⟩ :=
  run_nested_frame ast (runFrame ast) d c b

@[simp] theorem indentBytes_zero : indentBytes 0 = [] := rfl

theorem run_Block (d c : Nat) (b : Bytes) (trees : List Ast) :
    Formatter.run ⟨d, c, b⟩ (.Block trees) = Formatter.runList ⟨d, 0, b⟩ trees := by
  simp only [Formatter.run]

theorem run_Comment (d c : Nat) (b data : Bytes) :
    Formatter.run ⟨d, c, b⟩ (.Comment data) =
      some ⟨d, 0, b ++ indentBytes d ++ bs "# " ++ data ++ bs "\n"⟩ := by
  simp only [Formatter.run, Formatter.indent_mk, Formatter.write_mk,
    Formatter.newline_mk]

theorem run_Procedure (d c : Nat) (b name : Bytes) (parameters : List Bytes)
    (body : Ast) :
    Formatter.run ⟨d, c, b⟩ (.Procedure name parameters body) =
      (runOut (d + 1) 0 body).map fun p =>
        ⟨d, p.2, b ++ indentBytes d ++ bs "proc " ++ name ++ bs " \x7b" ++
          paramBytes parameters ++ bs " \x7d \x7b" ++ bs "\n" ++ p.1 ++
          indentBytes d ++ bs "\x7d\n"⟩ := by
  simp only [Formatter.run, Formatter.indent_mk, Formatter.write_mk,
    Formatter.paramFold_mk, Formatter.writeline_mk]
  rw [run_nested_frame_eq]
  cases hp : runOut (d + 1) 0 body <;> simp [List.append_assoc]

theorem run_If (d c : Nat) (b condition : Bytes) (body : Ast) :
    Formatter.run ⟨d, c, b⟩ (.If condition body) =
      (runOut (d + 1) 0 body).map fun p =>
        ⟨d, p.2, b ++ indentBytes d ++ bs "if \x7b " ++ condition ++
          bs " \x7d \x7b" ++ bs "\n" ++ p.1 ++ indentBytes d ++ bs "\x7d\n"⟩ := by
  simp only [Formatter.run, Formatter.indent_mk, Formatter.write_mk,
    Formatter.writeline_mk]
  rw [run_nested_frame_eq]
  cases hp : runOut (d + 1) 0 body <;> simp [List.append_assoc]

theorem run_IfElse (d c : Nat) (b condition : Bytes)
    (block_if_true block_if_false : Ast) :
    Formatter.run ⟨d, c, b⟩ (.IfElse condition block_if_true block_if_false) =
      (runOut (d + 1) 0 block_if_true).bind fun p =>
        (runOut (d + 1) p.2 block_if_false).map fun q =>
          ⟨d, q.2, b ++ indentBytes d ++ bs "if \x7b " ++ condition ++
            bs " \x7d \x7b" ++ bs "\n" ++ p.1 ++ indentBytes d ++ bs "\x7d\n" ++
            indentBytes d ++ bs "else \x7b" ++ bs "\n" ++ q.1 ++
            indentBytes d ++ bs "\x7d\n"⟩ := by
  simp only [Formatter.run, Formatter.indent_mk, Formatter.write_mk,
    Formatter.writeline_mk]
  rw [run_nested_frame_eq]
  cases hp : runOut (d + 1) 0 block_if_true with
  | none => simp
  | some p =>
    simp only [Option.map_some', Option.some_bind, Formatter.close_block_mk,
      Formatter.indent_mk, Formatter.write_mk, Formatter.newline_mk]
    rw [run_nested_frame_eq]
    cases hq : runOut (d + 1) p.2 block_if_false <;> simp [List.append_assoc]

theorem run_IfElseIf (d c : Nat) (b : Bytes) (pairs : List (Bytes × Ast))
    (block_if_false : Ast) :
    Formatter.run ⟨d, c, b⟩ (.IfElseIf pairs block_if_false) =
      (runIfPairsOut d 0 0 pairs).bind fun p =>
        (runOut (d + 1) p.2 block_if_false).map fun q =>
          ⟨d, q.2, b ++ p.1 ++ indentBytes d ++ bs "else \x7b" ++ bs "\n" ++
            q.1 ++ indentBytes d ++ bs "\x7d\n"⟩ := by
  simp only [Formatter.run]
  rw [runIfPairs_frame_eq]
  cases hp : runIfPairsOut d 0 0 pairs with
  | none => simp
  | some p =>
    simp only [Option.map_some', Option.some_bind, Formatter.indent_mk,
      Formatter.writeline_mk]
    rw [run_nested_frame_eq]
    cases hq : runOut (d + 1) p.2 block_if_false <;> simp [List.append_assoc]

theorem run_Switch (d c : Nat) (b condition : Bytes)
    (pairs : List (Bytes × Option Ast)) :
    Formatter.run ⟨d, c, b⟩ (.Switch condition pairs) =
      (runSwitchPairsOut (d + 1) 0 pairs).map fun p =>
        ⟨d, p.2, b ++ indentBytes d ++ bs "switch " ++ condition ++ bs " \x7b" ++
          bs "\n" ++ p.1 ++ indentBytes d ++ bs "\x7d\n"⟩ := by
  simp only [Formatter.run, Formatter.indent_mk, Formatter.write_mk,
    Formatter.writeline_mk]
  rw [runSwitchPairs_frame_eq]
  cases hp : runSwitchPairsOut (d + 1) 0 pairs <;> simp [List.append_assoc]

theorem run_Statement (d c : Nat) (b : Bytes) (s : Statement) :
    Formatter.run ⟨d, c, b⟩ (.Statement s) =
      Formatter.write_statement ⟨d, 0, b ++ indentBytes d⟩ s := by
  simp only [Formatter.run, Formatter.indent_mk]

theorem run_Newline (d c : Nat) (b : Bytes) :
    Formatter.run ⟨d, c, b⟩ .Newline =
      some ⟨d, c + 1, b ++ if c + 1 ≤ 2 then bs "\n" else []⟩ := by
  simp only [Formatter.run]
  by_cases hc : c + 1 ≤ 2 <;> simp [hc]

theorem runIfPairsOut_nil (d c idx : Nat) :
    runIfPairsOut d c idx [] = some ([], c) := by
  simp [runIfPairsOut, Formatter.runIfPairs]

theorem runIfPairsOut_cons (d c idx : Nat) (condition : Bytes) (block : Ast)
    (rest : List (Bytes × Ast)) :
    runIfPairsOut d c idx ((condition, block) :: rest) =
      (runOut (d + 1) c block).bind fun p =>
        (runIfPairsOut d p.2 (idx + 1) rest).map fun q =>
          (indentBytes d ++ ifKeyword idx ++ condition ++ bs " \x7d \x7b" ++
            bs "\n" ++ p.1 ++ indentBytes d ++ bs "\x7d\n" ++ q.1, q.2) := by
  simp only [runIfPairsOut, runIfPairs_cons, Formatter.indent_mk,
    Formatter.write_mk, Formatter.writeline_mk]
  rw [run_nested_frame_eq]
  cases hp : runOut (d + 1) c block with
  | none => simp
  | some p =>
    simp only [Option.map_some', Option.some_bind, Formatter.close_block_mk,
      List.nil_append]
    rw [runIfPairs_frame_eq, runIfPairs_frame_eq]
    cases hq : runIfPairsOut d p.2 (idx + 1) rest <;> simp [List.append_assoc]

theorem runSwitchPairsOut_nil (d c : Nat) :
    runSwitchPairsOut d c [] = some ([], c) := by
  simp [runSwitchPairsOut, Formatter.runSwitchPairs]

theorem runSwitchPairsOut_fallthrough (d c : Nat) (value : Bytes)
    (rest : List (Bytes × Option Ast)) :
    runSwitchPairsOut d c ((value, none) :: rest) =
      (runSwitchPairsOut d c rest).map fun p =>
        (indentBytes d ++ value ++ bs " -" ++ bs "\n" ++ p.1, p.2) := by
  simp only [runSwitchPairsOut, Formatter.runSwitchPairs, Formatter.indent_mk,
    Formatter.write_mk, Formatter.writeline_mk]
  rw [runSwitchPairs_frame_eq, runSwitchPairs_frame_eq]
  cases hq : runSwitchPairsOut d c rest <;> simp [List.append_assoc]

theorem runSwitchPairsOut_body (d c : Nat) (value : Bytes) (block : Ast)
    (rest : List (Bytes × Option Ast)) :
    runSwitchPairsOut d c ((value, some block) :: rest) =
      (runOut (d + 1) c block).bind fun p =>
        (runSwitchPairsOut d p.2 rest).map fun q =>
          (indentBytes d ++ value ++ bs " \x7b" ++ bs "\n" ++ p.1 ++
            indentBytes d ++ bs "\x7d\n" ++ q.1, q.2) := by
  simp only [runSwitchPairsOut, Formatter.runSwitchPairs, Formatter.indent_mk,
    Formatter.write_mk, Formatter.writeline_mk]
  rw [run_nested_frame_eq]
  cases hp : runOut (d + 1) c block with
  | none => simp
  | some p =>
    simp only [Option.map_some', Option.some_bind, Formatter.close_block_mk,
      List.nil_append]
    rw [runSwitchPairs_frame_eq, runSwitchPairs_frame_eq]
    cases hq : runSwitchPairsOut d p.2 rest <;> simp [List.append_assoc]

theorem noBareReturnList_mem (l : List Ast) (h : noBareReturnList l = true) :
    ∀ t ∈ l, noBareReturn t = true := by
  induction l with
  | nil => simp
  | cons t ts ih =>
    simp only [noBareReturnList, Bool.and_eq_true] at h
    intro u hu
    rcases List.mem_cons.mp hu with rfl | hu
    · exact h.1
    · exact ih h.2 u hu

theorem noBareReturnPairs_mem (l : List (Bytes × Ast))
    (h : noBareReturnPairs l = true) : ∀ q ∈ l, noBareReturn q.2 = true := by
  induction l with
  | nil => simp
  | cons q rest ih =>
    obtain ⟨qa, qb⟩ := q
    simp only [noBareReturnPairs, Bool.and_eq_true] at h
    intro u hu
    rcases List.mem_cons.mp hu with rfl | hu
    · exact h.1
    · exact ih h.2 u hu

theorem noBareReturnSwitch_mem (l : List (Bytes × Option Ast))
    (h : noBareReturnSwitch l = true) :
    ∀ q ∈ l, ∀ t ∈ q.2, noBareReturn t = true := by
  induction l with
  | nil => simp
  | cons q rest ih =>
    intro u hu t ht
    rcases List.mem_cons.mp hu with huq | hu2
    · obtain ⟨qa, qb⟩ := q
      subst huq
      rw [Option.mem_def] at ht
      subst ht
      simp only [noBareReturnSwitch, Bool.and_eq_true] at h
      exact h.1
    · have hrest : noBareReturnSwitch rest = true := by
        obtain ⟨qa, qb⟩ := q
        cases qb with
        | none => simpa [noBareReturnSwitch] using h
        | some qt =>
          simp only [noBareReturnSwitch, Bool.and_eq_true] at h
          exact h.2
      exact ih hrest u hu2 t ht

theorem write_statement_total (f : Formatter) (s : Statement)
    (h : s.hasOperands = true) :
    (Formatter.write_statement f s).isSome = true := by
  obtain ⟨d, c, b⟩ := f
  cases s with
  | Set i v => simp
  | Log i v => simp
  | Snat i v => simp
  | Node i v => simp
  | Pool i => simp
  | SnatPool i => simp
  | Return v =>
    cases v with
    | none => simp [Statement.hasOperands] at h
    | some v => simp

theorem runOut_isSome (ast : Ast) (h : TotalRun ast) (d c : Nat) :
    (runOut d c ast).isSome = true := by
  cases hr : Formatter.run ⟨d, c, []⟩ ast with
  | none =>
    have := h ⟨d, c, []⟩
    rw [hr] at this
    simp at this
  | some g => simp [runOut, hr]

theorem run_nested_total (ast : Ast) (h : TotalRun ast) (f : Formatter) :
    (Formatter.run_nested f ast).isSome = true := by
  simp only [Formatter.run_nested]
  cases hr : Formatter.run ⟨f.depth + 1, f.consecutive_new_lines, f.buf⟩ ast with
  | none =>
    have := h ⟨f.depth + 1, f.consecutive_new_lines, f.buf⟩
    rw [hr] at this
    simp at this
  | some g => simp

theorem runList_total (l : List Ast) (h : ∀ t ∈ l, TotalRun t) :
    ∀ f : Formatter, (Formatter.runList f l).isSome = true := by
  induction l with
  | nil => intro f; simp [Formatter.runList]
  | cons t ts ih =>
    intro f
    have ht := h t (by simp) f
    simp only [Formatter.runList]
    cases hr : Formatter.run f t with
    | none => rw [hr] at ht; simp at ht
    | some g =>
      simp only [Option.some_bind]
      exact ih (fun u hu => h u (List.mem_cons_of_mem _ hu)) g

theorem runIfPairs_total (l : List (Bytes × Ast)) (h : ∀ q ∈ l, TotalRun q.2) :
    ∀ (f : Formatter) (idx : Nat),
      (Formatter.runIfPairs f idx l).isSome = true := by
  induction l with
  | nil => intro f idx; simp [Formatter.runIfPairs]
  | cons q rest ih =>
    obtain ⟨condition, block⟩ := q
    intro f idx
    have hbl : TotalRun block := h (condition, block) (by simp)
    rw [runIfPairs_cons]
    obtain ⟨g, hg⟩ := Option.isSome_iff_exists.mp
      (run_nested_total block hbl
        (((f.indent.write (ifKeyword idx)).write condition).writeline
          (bs " \x7d \x7b")))
    rw [hg]
    simp only [Option.some_bind]
    exact ih (fun u hu => h u (List.mem_cons_of_mem _ hu)) g.close_block (idx + 1)

theorem runSwitchPairs_total (l : List (Bytes × Option Ast))
    (h : ∀ q ∈ l, ∀ t ∈ q.2, TotalRun t) :
    ∀ f : Formatter, (Formatter.runSwitchPairs f l).isSome = true := by
  induction l with
  | nil => intro f; simp [Formatter.runSwitchPairs]
  | cons q rest ih =>
    obtain ⟨value, blockOrFall⟩ := q
    intro f
    have hrest : ∀ u ∈ rest, ∀ t ∈ u.2, TotalRun t := fun u hu =>
      h u (List.mem_cons_of_mem _ hu)
    cases blockOrFall with
    | none =>
      simp only [Formatter.runSwitchPairs]
      exact ih hrest _
    | some block =>
      have hbl : TotalRun block := h (value, some block) (by simp) block (by simp)
      simp only [Formatter.runSwitchPairs]
      obtain ⟨g, hg⟩ := Option.isSome_iff_exists.mp
        (run_nested_total block hbl ((f.indent.write value).writeline (bs " \x7b")))
      rw [hg]
      simp only [Option.some_bind]
      exact ih hrest g.close_block

theorem runIfPairsOut_isSome (l : List (Bytes × Ast))
    (h : ∀ q ∈ l, TotalRun q.2) (d c idx : Nat) :
    (runIfPairsOut d c idx l).isSome = true := by
  cases hr : Formatter.runIfPairs ⟨d, c, []⟩ idx l with
  | none =>
    have := runIfPairs_total l h ⟨d, c, []⟩ idx
    rw [hr] at this
    simp at this
  | some g => simp [runIfPairsOut, hr]

theorem runSwitchPairsOut_isSome (l : List (Bytes × Option Ast))
    (h : ∀ q ∈ l, ∀ t ∈ q.2, TotalRun t) (d c : Nat) :
    (runSwitchPairsOut d c l).isSome = true := by
  cases hr : Formatter.runSwitchPairs ⟨d, c, []⟩ l with
  | none =>
    have := runSwitchPairs_total l h ⟨d, c, []⟩
    rw [hr] at this
    simp at this
  | some g => simp [runSwitchPairsOut, hr]

theorem runTotal_sized : ∀ (n : Nat) (ast : Ast), sizeOf ast ≤ n →
    noBareReturn ast = true → TotalRun ast := by
  intro n
  induction n with
  | zero =>
    intro ast h
    exfalso
    cases ast <;> simp at h
  | succ n ih =>
    intro ast hsize hnb
    cases ast with
    | Block trees =>
      have hts : ∀ t ∈ trees, TotalRun t := by
        intro t ht
        refine ih t ?_ ?_
        · have h1 := List.sizeOf_lt_of_mem ht
          simp at hsize
          omega
        · exact noBareReturnList_mem trees
            (by simpa [noBareReturn] using hnb) t ht
      intro f
      obtain ⟨d, c, b⟩ := f
      rw [run_Block]
      exact runList_total trees hts _
    | Comment data =>
      intro f
      obtain ⟨d, c, b⟩ := f
      rw [run_Comment]
      simp
    | Procedure name parameters body =>
      have hb : TotalRun body := by
        refine ih body ?_ (by simpa [noBareReturn] using hnb)
        simp at hsize
        omega
      intro f
      obtain ⟨d, c, b⟩ := f
      rw [run_Procedure]
      cases hp : runOut (d + 1) 0 body with
      | none =>
        have := runOut_isSome body hb (d + 1) 0
        rw [hp] at this
        simp at this
      | some p => simp
    | If condition body =>
      have hb : TotalRun body := by
        refine ih body ?_ (by simpa [noBareReturn] using hnb)
        simp at hsize
        omega
      intro f
      obtain ⟨d, c, b⟩ := f
      rw [run_If]
      cases hp : runOut (d + 1) 0 body with
      | none =>
        have := runOut_isSome body hb (d + 1) 0
        rw [hp] at this
        simp at this
      | some p => simp
    | IfElse condition block_if_true block_if_false =>
      simp only [noBareReturn, Bool.and_eq_true] at hnb
      have hbt : TotalRun block_if_true := by
        refine ih block_if_true ?_ hnb.1
        simp at hsize
        omega
      have hbf : TotalRun block_if_false := by
        refine ih block_if_false ?_ hnb.2
        simp at hsize
        omega
      intro f
      obtain ⟨d, c, b⟩ := f
      rw [run_IfElse]
      cases hp : runOut (d + 1) 0 block_if_true with
      | none =>
        have := runOut_isSome block_if_true hbt (d + 1) 0
        rw [hp] at this
        simp at this
      | some p =>
        simp only [Option.some_bind]
        cases hq : runOut (d + 1) p.2 block_if_false with
        | none =>
          have := runOut_isSome block_if_false hbf (d + 1) p.2
          rw [hq] at this
          simp at this
        | some q => simp
    | IfElseIf condition_block_vec block_if_false =>
      simp only [noBareReturn, Bool.and_eq_true] at hnb
      have hpairs : ∀ q ∈ condition_block_vec, TotalRun q.2 := by
        intro q hq
        have h1 := List.sizeOf_lt_of_mem hq
        have h2 := noBareReturnPairs_mem condition_block_vec hnb.1 q hq
        obtain ⟨qa, qb⟩ := q
        refine ih qb ?_ h2
        simp at hsize h1
        omega
      have hbf : TotalRun block_if_false := by
        refine ih block_if_false ?_ hnb.2
        simp at hsize
        omega
      intro f
      obtain ⟨d, c, b⟩ := f
      rw [run_IfElseIf]
      cases hp : runIfPairsOut d 0 0 condition_block_vec with
      | none =>
        have := runIfPairsOut_isSome condition_block_vec hpairs d 0 0
        rw [hp] at this
        simp at this
      | some p =>
        simp only [Option.some_bind]
        cases hq : runOut (d + 1) p.2 block_if_false with
        | none =>
          have := runOut_isSome block_if_false hbf (d + 1) p.2
          rw [hq] at this
          simp at this
        | some q => simp
    | Switch condition value_block_or_fallthrough_vec =>
      have hsw : ∀ q ∈ value_block_or_fallthrough_vec, ∀ t ∈ q.2, TotalRun t := by
        intro q hq t ht
        have h1 := List.sizeOf_lt_of_mem hq
        have h2 := noBareReturnSwitch_mem value_block_or_fallthrough_vec
          (by simpa [noBareReturn] using hnb) q hq t ht
        obtain ⟨qa, qb⟩ := q
        rw [Option.mem_def] at ht
        subst ht
        refine ih t ?_ h2
        simp at hsize h1
        omega
      intro f
      obtain ⟨d, c, b⟩ := f
      rw [run_Switch]
      cases hp : runSwitchPairsOut (d + 1) 0 value_block_or_fallthrough_vec with
      | none =>
        have := runSwitchPairsOut_isSome value_block_or_fallthrough_vec hsw
          (d + 1) 0
        rw [hp] at this
        simp at this
      | some p => simp
    | Statement s =>
      intro f
      obtain ⟨d, c, b⟩ := f
      rw [run_Statement]
      exact write_statement_total _ s (by simpa [noBareReturn] using hnb)
    | Newline =>
      intro f
      obtain ⟨d, c, b⟩ := f
      rw [run_Newline]
      simp

/-- A tree with no value-less `Return` formats successfully from any state. -/
theorem runTotal (ast : Ast) (h : noBareReturn ast = true) : TotalRun ast :=
  runTotal_sized (sizeOf ast) ast le_rfl h

/-- Rendering a run of `n` newline markers starting at counter `c`: each one
bumps the counter, and a line feed is emitted only while the counter is at
most two. -/
theorem runList_replicate_newline (d : Nat) :
    ∀ (n c : Nat) (b : Bytes),
      Formatter.runList ⟨d, c, b⟩ (List.replicate n .Newline) =
        some ⟨d, c + n, b ++ List.replicate (min 2 (c + n) - min 2 c) 10⟩ := by
  intro n
  induction n with
  | zero => intro c b; simp [Formatter.runList]
  | succ n ih =>
    intro c b
    rw [List.replicate_succ]
    simp only [Formatter.runList]
    rw [run_Newline]
    simp only [Option.some_bind]
    rw [ih (c + 1)]
    by_cases hc : c + 1 ≤ 2
    · have h1 : min 2 (c + 1 + n) - min 2 (c + 1) + 1
          = min 2 (c + (n + 1)) - min 2 c := by omega
      have h2 : c + 1 + n = c + (n + 1) := by omega
      simp [hc, show bs "\n" = [10] from rfl, List.append_assoc, h2, ← h1,
        List.replicate_succ]
    · have h1 : min 2 (c + (n + 1)) - min 2 (c + 1)
          = min 2 (c + (n + 1)) - min 2 c := by omega
      have h2 : c + 1 + n = c + (n + 1) := by omega
      simp [hc, h2, h1]

/-!
## Claims

One theorem per claim of the specification, in terms of the embedded
formatter.
-/

/-- Claim C1, counterexample: `format` does not run to completion on every
constructible tree.  On a tree containing a `Return` statement whose optional
value is absent, the statement renderer reaches the unimplemented zero-operand
arm (`todo!()` in the source, a panic, modelled as `none`). -/
theorem claim1_counterexample :
    Formatter.new.format (.Statement (.Return none)) = none := by
  simp [Formatter.format, Formatter.new, Formatter.run, indentBytes]

/-- Claim C1 (amended): for every tree containing no `Return` statement with
absent value, `format` runs the traversal to completion and returns the
accumulated output buffer; no validation is performed and operand bytes are
passed through opaquely, so no other tree shape can fail. -/
theorem claim1_total_without_bare_return (ast : Ast)
    (h : noBareReturn ast = true) :
    (Formatter.new.format ast).isSome = true := by
  have htot := runTotal ast h Formatter.new
  simp only [Formatter.format]
  cases hr : Formatter.run Formatter.new ast with
  | none => rw [hr] at htot; simp at htot
  | some g => simp

theorem claim1_total_without_bare_return_witness :
    noBareReturn (.Statement (.Set (bs "x") (bs "1"))) = true ∧
      (Formatter.new.format (.Statement (.Set (bs "x") (bs "1")))).isSome
        = true :=
  ⟨by simp [noBareReturn, Statement.hasOperands],
    claim1_total_without_bare_return _
      (by simp [noBareReturn, Statement.hasOperands])⟩

/-- Claim C2: a run of `n` consecutive `Newline` siblings inside a `Block`
renders as exactly `min n 2` literal line breaks (byte 10): the first and
second `Newline` of a run each emit one break, the third and later ones emit
nothing; the counter is reset by any preceding non-`Newline` sibling (here a
`Comment`), so the cap applies per run. -/
theorem claim2_blank_line_capping (n : Nat) (data : Bytes) :
    Formatter.new.format (.Block (List.replicate n .Newline))
        = some (List.replicate (min n 2) 10) ∧
      Formatter.new.format (.Block (.Comment data :: List.replicate n .Newline))
        = some (bs "# " ++ data ++ bs "\n" ++ List.replicate (min n 2) 10) := by
  constructor
  · have h0 := runList_replicate_newline 0 n 0 []
    have h1 : min 2 (0 + n) - min 2 0 = min n 2 := by omega
    rw [h1] at h0
    simp only [Nat.zero_add, List.nil_append] at h0
    show (Formatter.run ⟨0, 0, []⟩
        (.Block (List.replicate n .Newline))).map Formatter.buf = _
    rw [run_Block, h0]
    rfl
  · have h0 := runList_replicate_newline 0 n 0 (bs "# " ++ data ++ bs "\n")
    have h1 : min 2 (0 + n) - min 2 0 = min n 2 := by omega
    rw [h1] at h0
    show (Formatter.run ⟨0, 0, []⟩
        (.Block (.Comment data :: List.replicate n .Newline))).map
          Formatter.buf = _
    rw [run_Block]
    simp only [Formatter.runList]
    rw [run_Comment]
    simp only [Option.some_bind, indentBytes_zero, List.nil_append]
    rw [h0]
    simp [List.append_assoc]

/-- Claim C3: the round-trip scenario.  Formatting
`Procedure p [a] (Block [Statement (Set x 1)])` at depth 0 yields exactly the
header line, the body statement indented by one four-space unit, and a closing
brace at the original depth. -/
theorem claim3_procedure_scenario :
    Formatter.new.format (.Procedure (bs "p") [bs "a"]
        (.Block [.Statement (.Set (bs "x") (bs "1"))]))
      = some (bs "proc p \x7b a \x7d \x7b\n    set x 1\n\x7d\n") := by
  simp [Formatter.format, Formatter.new, Formatter.run, Formatter.runList,
    Formatter.run_nested, indentBytes, paramBytes]
  rfl

/-- Claim C4: switch rendering.  The given scenario renders exactly as
specified; in general the pairs render in declared order one indentation
level deeper than the `switch` header, a bodyless pair renders its value line
suffixed by a dash with no nested block, and a pair with a body opens a
nested block one further level deeper and closes it at the pair's depth. -/
theorem claim4_switch_rendering :
    (Formatter.new.format (.Switch (bs "$x")
        [(bs "1", none), (bs "2", some (.Block [.Statement (.Pool (bs "p1"))]))])
      = some
        (bs "switch $x \x7b\n    1 -\n    2 \x7b\n        pool p1\n    \x7d\n\x7d\n"))
    ∧ (∀ (d c : Nat) (b condition : Bytes) (pairs : List (Bytes × Option Ast)),
        Formatter.run ⟨d, c, b⟩ (.Switch condition pairs) =
          (runSwitchPairsOut (d + 1) 0 pairs).map fun p =>
            ⟨d, p.2, b ++ indentBytes d ++ bs "switch " ++ condition ++
              bs " \x7b" ++ bs "\n" ++ p.1 ++ indentBytes d ++ bs "\x7d\n"⟩)
    ∧ (∀ (d c : Nat) (value : Bytes) (rest : List (Bytes × Option Ast)),
        runSwitchPairsOut d c ((value, none) :: rest) =
          (runSwitchPairsOut d c rest).map fun p =>
            (indentBytes d ++ value ++ bs " -" ++ bs "\n" ++ p.1, p.2))
    ∧ (∀ (d c : Nat) (value : Bytes) (block : Ast)
          (rest : List (Bytes × Option Ast)),
        runSwitchPairsOut d c ((value, some block) :: rest) =
          (runOut (d + 1) c block).bind fun p =>
            (runSwitchPairsOut d p.2 rest).map fun q =>
              (indentBytes d ++ value ++ bs " \x7b" ++ bs "\n" ++ p.1 ++
                indentBytes d ++ bs "\x7d\n" ++ q.1, q.2)) := by
  refine ⟨?_, run_Switch, runSwitchPairsOut_fallthrough, runSwitchPairsOut_body⟩
  simp [Formatter.format, Formatter.new, Formatter.run, Formatter.runList,
    Formatter.runSwitchPairs, Formatter.run_nested, indentBytes]
  rfl

/-- Claim C5: `IfElseIf` keyword selection.  The first condition/body pair
(index 0) renders with keyword `if`, every later pair (index at least 1) with
keyword `elseif`, each as a header line followed by the pair's body one level
deeper and a closing brace; after the pairs a trailing `else` block is always
emitted, and an empty `Block` renders as zero lines. -/
theorem claim5_ifelseif_keywords :
    (∀ (d c : Nat) (condition : Bytes) (block : Ast)
        (rest : List (Bytes × Ast)),
      runIfPairsOut d c 0 ((condition, block) :: rest) =
        (runOut (d + 1) c block).bind fun p =>
          (runIfPairsOut d p.2 1 rest).map fun q =>
            (indentBytes d ++ bs "if \x7b " ++ condition ++ bs " \x7d \x7b" ++
              bs "\n" ++ p.1 ++ indentBytes d ++ bs "\x7d\n" ++ q.1, q.2))
    ∧ (∀ (d c idx : Nat) (condition : Bytes) (block : Ast)
        (rest : List (Bytes × Ast)),
      runIfPairsOut d c (idx + 1) ((condition, block) :: rest) =
        (runOut (d + 1) c block).bind fun p =>
          (runIfPairsOut d p.2 (idx + 2) rest).map fun q =>
            (indentBytes d ++ bs "elseif \x7b " ++ condition ++
              bs " \x7d \x7b" ++ bs "\n" ++ p.1 ++ indentBytes d ++
              bs "\x7d\n" ++ q.1, q.2))
    ∧ (∀ (d c : Nat) (b : Bytes) (pairs : List (Bytes × Ast))
        (block_if_false : Ast),
      Formatter.run ⟨d, c, b⟩ (.IfElseIf pairs block_if_false) =
        (runIfPairsOut d 0 0 pairs).bind fun p =>
          (runOut (d + 1) p.2 block_if_false).map fun q =>
            ⟨d, q.2, b ++ p.1 ++ indentBytes d ++ bs "else \x7b" ++ bs "\n" ++
              q.1 ++ indentBytes d ++ bs "\x7d\n"⟩)
    ∧ (∀ (d c : Nat) (b : Bytes),
      Formatter.run ⟨d, c, b⟩ (.Block []) = some ⟨d, 0, b⟩) := by
  refine ⟨?_, ?_, run_IfElseIf, ?_⟩
  · intro d c condition block rest
    exact runIfPairsOut_cons d c 0 condition block rest
  · intro d c idx condition block rest
    exact runIfPairsOut_cons d c (idx + 1) condition block rest
  · intro d c b
    rw [run_Block]
    simp [Formatter.runList]

/-- Claim C6: indentation correctness.  The indentation prefix is recomputed
from the current depth counter at each line start and consists of exactly `d`
four-space units; each construct's header lines carry the indentation of its
own depth, its body is rendered at depth `d + 1`, and every closing brace line
is emitted at the block's opening depth; an emitted blank line carries no
indentation. -/
theorem claim6_indentation :
    (∀ (d c : Nat) (b : Bytes),
      Formatter.indent ⟨d, c, b⟩ = ⟨d, c, b ++ indentBytes d⟩)
    ∧ (∀ (d c : Nat) (b : Bytes),
      Formatter.close_block ⟨d, c, b⟩
        = ⟨d, c, b ++ indentBytes d ++ bs "\x7d\n"⟩)
    ∧ (∀ (d c : Nat) (b data : Bytes),
      Formatter.run ⟨d, c, b⟩ (.Comment data) =
        some ⟨d, 0, b ++ indentBytes d ++ bs "# " ++ data ++ bs "\n"⟩)
    ∧ (∀ (d c : Nat) (b name : Bytes) (parameters : List Bytes) (body : Ast),
      Formatter.run ⟨d, c, b⟩ (.Procedure name parameters body) =
        (runOut (d + 1) 0 body).map fun p =>
          ⟨d, p.2, b ++ indentBytes d ++ bs "proc " ++ name ++ bs " \x7b" ++
            paramBytes parameters ++ bs " \x7d \x7b" ++ bs "\n" ++ p.1 ++
            indentBytes d ++ bs "\x7d\n"⟩)
    ∧ (∀ (d c : Nat) (b condition : Bytes) (body : Ast),
      Formatter.run ⟨d, c, b⟩ (.If condition body) =
        (runOut (d + 1) 0 body).map fun p =>
          ⟨d, p.2, b ++ indentBytes d ++ bs "if \x7b " ++ condition ++
            bs " \x7d \x7b" ++ bs "\n" ++ p.1 ++ indentBytes d ++ bs "\x7d\n"⟩)
    ∧ (∀ (d c : Nat) (b condition : Bytes)
        (block_if_true block_if_false : Ast),
      Formatter.run ⟨d, c, b⟩ (.IfElse condition block_if_true block_if_false) =
        (runOut (d + 1) 0 block_if_true).bind fun p =>
          (runOut (d + 1) p.2 block_if_false).map fun q =>
            ⟨d, q.2, b ++ indentBytes d ++ bs "if \x7b " ++ condition ++
              bs " \x7d \x7b" ++ bs "\n" ++ p.1 ++ indentBytes d ++
              bs "\x7d\n" ++ indentBytes d ++ bs "else \x7b" ++ bs "\n" ++
              q.1 ++ indentBytes d ++ bs "\x7d\n"⟩)
    ∧ (∀ (d c : Nat) (b : Bytes) (pairs : List (Bytes × Ast))
        (block_if_false : Ast),
      Formatter.run ⟨d, c, b⟩ (.IfElseIf pairs block_if_false) =
        (runIfPairsOut d 0 0 pairs).bind fun p =>
          (runOut (d + 1) p.2 block_if_false).map fun q =>
            ⟨d, q.2, b ++ p.1 ++ indentBytes d ++ bs "else \x7b" ++ bs "\n" ++
              q.1 ++ indentBytes d ++ bs "\x7d\n"⟩)
    ∧ (∀ (d c : Nat) (b condition : Bytes) (pairs : List (Bytes × Option Ast)),
      Formatter.run ⟨d, c, b⟩ (.Switch condition pairs) =
        (runSwitchPairsOut (d + 1) 0 pairs).map fun p =>
          ⟨d, p.2, b ++ indentBytes d ++ bs "switch " ++ condition ++
            bs " \x7b" ++ bs "\n" ++ p.1 ++ indentBytes d ++ bs "\x7d\n"⟩)
    ∧ (∀ (d c : Nat) (b : Bytes) (s : Statement),
      Formatter.run ⟨d, c, b⟩ (.Statement s) =
        Formatter.write_statement ⟨d, 0, b ++ indentBytes d⟩ s)
    ∧ (∀ (d c : Nat) (b : Bytes),
      Formatter.run ⟨d, c, b⟩ .Newline =
        some ⟨d, c + 1, b ++ if c + 1 ≤ 2 then bs "\n" else []⟩) :=
  ⟨Formatter.indent_mk, Formatter.close_block_mk, run_Comment, run_Procedure,
    run_If, run_IfElse, run_IfElseIf, run_Switch, run_Statement, run_Newline⟩

/-- Claim C7, counterexample: an `IfElseIf` node with an empty pair list is
not treated as fail-fast; the traversal completes normally and produces
output for the node (just the trailing else block). -/
theorem claim7_counterexample :
    Formatter.new.format (.IfElseIf [] (.Block []))
      = some (bs "else \x7b\n\x7d\n") := by
  simp [Formatter.format, Formatter.new, Formatter.run, Formatter.runList,
    Formatter.runIfPairs, Formatter.run_nested, indentBytes]
  rfl

/-- Claim C7 (amended): applying `format` to an `IfElseIf` whose pair list is
empty is not fail-fast.  The pair loop does nothing and the traversal
completes normally, emitting only the trailing `else` block: the `else`
header at the node's depth, the false-branch body one level deeper, and a
closing brace — with no `if` or `elseif` header at all. -/
theorem claim7_empty_pairs_not_fail_fast :
    ∀ (d c : Nat) (b : Bytes) (block_if_false : Ast),
      Formatter.run ⟨d, c, b⟩ (.IfElseIf [] block_if_false) =
        (runOut (d + 1) 0 block_if_false).map fun p =>
          ⟨d, p.2, b ++ indentBytes d ++ bs "else \x7b" ++ bs "\n" ++ p.1 ++
            indentBytes d ++ bs "\x7d\n"⟩ := by
  intro d c b block_if_false
  rw [run_IfElseIf, runIfPairsOut_nil]
  cases hp : runOut (d + 1) 0 block_if_false <;> simp [hp, List.append_assoc]

/-- Claim C8: statement rendering.  Each operand-present variant renders as
its fixed keyword followed by its operand fields in order, joined by single
spaces, terminated by exactly one line break, with the operand bytes copied
verbatim. -/
theorem claim8_statement_rendering (f : Formatter) (i v : Bytes) :
    (Formatter.write_statement f (.Set i v)
      = some (f.write (bs "set" ++ bs " " ++ i ++ bs " " ++ v ++ bs "\n")))
    ∧ (Formatter.write_statement f (.Log i v)
      = some (f.write (bs "log" ++ bs " " ++ i ++ bs " " ++ v ++ bs "\n")))
    ∧ (Formatter.write_statement f (.Snat i v)
      = some (f.write (bs "snat" ++ bs " " ++ i ++ bs " " ++ v ++ bs "\n")))
    ∧ (Formatter.write_statement f (.Node i v)
      = some (f.write (bs "node" ++ bs " " ++ i ++ bs " " ++ v ++ bs "\n")))
    ∧ (Formatter.write_statement f (.Pool i)
      = some (f.write (bs "pool" ++ bs " " ++ i ++ bs "\n")))
    ∧ (Formatter.write_statement f (.SnatPool i)
      = some (f.write (bs "snatpool" ++ bs " " ++ i ++ bs "\n")))
    ∧ (Formatter.write_statement f (.Return (some i))
      = some (f.write (bs "return" ++ bs " " ++ i ++ bs "\n"))) := by
  obtain ⟨d, c, b⟩ := f
  refine ⟨?_, ?_, ?_, ?_, ?_, ?_, ?_⟩ <;> simp [List.append_assoc]

/-- Claim C9: determinism.  Formatting structurally equal trees, each on a
fresh formatter (depth 0, counter 0, empty buffer), yields byte-identical
output. -/
theorem claim9_deterministic (t1 t2 : Ast) (h : t1 = t2) :
    Formatter.new.format t1 = Formatter.new.format t2 := by
  rw [h]

theorem claim9_deterministic_witness :
    Formatter.new.format .Newline = Formatter.new.format .Newline :=
  claim9_deterministic .Newline .Newline rfl

/-- Claim C10: the traversal preserves the indentation depth counter.  When
`run` (or `run_nested`) returns a final state, its depth field equals the
starting depth — every increment is matched by a decrement — so siblings of
one `Block` render at the same depth and the root renders at depth 0. -/
theorem claim10_depth_preserved (f g : Formatter) (ast : Ast) :
    (Formatter.run f ast = some g → g.depth = f.depth)
    ∧ (Formatter.run_nested f ast = some g → g.depth = f.depth) := by
  obtain ⟨d, c, b⟩ := f
  constructor
  · intro h
    rw [run_frame_eq] at h
    cases hp : runOut d c ast with
    | none => rw [hp] at h; simp at h
    | some p =>
      rw [hp] at h
      simp only [Option.map_some', Option.some.injEq] at h
      subst h
      rfl
  · intro h
    rw [run_nested_frame_eq] at h
    cases hp : runOut (d + 1) c ast with
    | none => rw [hp] at h; simp at h
    | some p =>
      rw [hp] at h
      simp only [Option.map_some', Option.some.injEq] at h
      subst h
      rfl

theorem claim10_depth_preserved_witness :
    (⟨0, 1, bs "\n"⟩ : Formatter).depth = Formatter.new.depth :=
  (claim10_depth_preserved Formatter.new ⟨0, 1, bs "\n"⟩ .Newline).1 (by
    simp [Formatter.new, run_Newline])
